import Mathlib

/-!
Verification development for the YTMusicWrapped analyzer
(`src/music-analyzer.py`).  The Python program is shallowly embedded:
pure fragments become Lean functions, the pandas dataframe becomes a
list of rows, library calls (BeautifulSoup, `re`, `datetime.strptime`,
`isodate`, the YouTube client) are modelled at the boundary where the
program observes them, and floating point arithmetic is modelled over
`ℚ`.
-/

namespace YTMW

/-! ## Characters and basic string machinery -/

/-- Python `\d` (ASCII digits; the history export only contains ASCII here). -/
def isDigitC (c : Char) : Bool := c.isDigit

/-- Python `\w`: letters, digits or underscore. -/
def isWordC (c : Char) : Bool := c.isAlphanum || c = '_'

/-- Python `\s`: the six ASCII whitespace characters. -/
def isSpaceC (c : Char) : Bool :=
  c = ' ' || c = '\t' || c = '\n' || c = '\x0b' || c = '\x0c' || c = '\r'

/-- Substring test on char lists: does `p` occur inside `l`?  (Python `in`.) -/
def listContains (p : List Char) : List Char → Bool
  | [] => p.isPrefixOf ([] : List Char)
  | c :: t => p.isPrefixOf (c :: t) || listContains p t

/-- Python `pat in s` on strings. -/
def strContains (s pat : String) : Bool := listContains pat.toList s.toList

/-- Numeric value of an ASCII digit character. -/
def dval (c : Char) : Nat := c.toNat - 48

/-- Python `str.split(sep)` on char lists (non-empty `sep`,
non-overlapping occurrences left to right).  The fuel counter equals
the list length at the top call; every step consumes at least one
character. -/
def splitGo (sep : List Char) : Nat → List Char → List Char → List (List Char)
  | _, [], acc => [acc.reverse]
  | 0, l, acc => [acc.reverse ++ l]
  | fuel + 1, c :: t, acc =>
    if sep.isPrefixOf (c :: t) then
      acc.reverse :: splitGo sep fuel ((c :: t).drop sep.length) []
    else splitGo sep fuel t (c :: acc)

def splitOnStr (s sep : String) : List String :=
  if sep = "" then [s]
  else (splitGo sep.toList s.toList.length s.toList []).map String.mk

/-- Python `str.replace(pat, rep)` on char lists (non-empty `pat`,
non-overlapping occurrences left to right), same fuel device. -/
def replaceGo (pat rep : List Char) : Nat → List Char → List Char
  | _, [] => []
  | 0, l => l
  | fuel + 1, c :: t =>
    if pat.isPrefixOf (c :: t) then
      rep ++ replaceGo pat rep fuel ((c :: t).drop pat.length)
    else c :: replaceGo pat rep fuel t

def replaceStr (s pat rep : String) : String :=
  if pat = "" then s
  else String.mk (replaceGo pat.toList rep.toList s.toList.length s.toList)

/-- Natural number denoted by a digit list (most significant first). -/
def natOfDigits (l : List Char) : Nat := l.foldl (fun a c => 10 * a + dval c) 0

/-! ## The timestamp regular expression

`re.compile(r'\d{1,2}\s\w{3,4}\s\d{4},\s\d{2}:\d{2}:\d{2}')` with
`search` (leftmost match, greedy quantifiers with backtracking).  The
two bounded quantifiers `\d{1,2}` and `\w{3,4}` are the only
backtracking points; each is modelled as an ordered candidate list
(longer match first, as a greedy regex tries it first). -/

/-- Match exactly `n` characters satisfying `p`, returning them and the rest. -/
def mtake (p : Char → Bool) : Nat → List Char → Option (List Char × List Char)
  | 0, l => some ([], l)
  | _ + 1, [] => none
  | n + 1, c :: t =>
    if p c then (mtake p n t).map (fun pr => (c :: pr.1, pr.2)) else none

/-- Match one character satisfying `p`. -/
def mone (p : Char → Bool) : List Char → Option (List Char × List Char)
  | [] => none
  | c :: t => if p c then some ([c], t) else none

/-- Match one literal character. -/
def mlit (c : Char) : List Char → Option (List Char × List Char)
  | [] => none
  | x :: t => if x = c then some ([x], t) else none

/-- Greedy candidates for `\d{1,2}`: two digits first, then one digit. -/
def twoDigitCands (l : List Char) : List (List Char × List Char) :=
  (match l with
   | a :: b :: t => if isDigitC a && isDigitC b then [([a, b], t)] else []
   | _ => []) ++
  (match l with
   | a :: t => if isDigitC a then [([a], t)] else []
   | _ => [])

/-- Greedy candidates for `\w{3,4}`: four word chars first, then three. -/
def w34Cands (l : List Char) : List (List Char × List Char) :=
  (match mtake isWordC 4 l with
   | some pr => [pr]
   | none => []) ++
  (match mtake isWordC 3 l with
   | some pr => [pr]
   | none => [])

/-- Attempt the whole timestamp pattern at the head of `l`; on success
return the matched characters. -/
def tsPattern (l : List Char) : Option (List Char) :=
  (twoDigitCands l).findSome? fun dc =>
    (mone isSpaceC dc.2).bind fun s1 =>
      (w34Cands s1.2).findSome? fun wc =>
        (mone isSpaceC wc.2).bind fun s2 =>
          (mtake isDigitC 4 s2.2).bind fun y4 =>
            (mlit ',' y4.2).bind fun cm =>
              (mone isSpaceC cm.2).bind fun s3 =>
                (mtake isDigitC 2 s3.2).bind fun hh =>
                  (mlit ':' hh.2).bind fun c1 =>
                    (mtake isDigitC 2 c1.2).bind fun mm =>
                      (mlit ':' mm.2).bind fun c2 =>
                        (mtake isDigitC 2 c2.2).map fun ss =>
                          dc.1 ++ s1.1 ++ wc.1 ++ s2.1 ++ y4.1 ++ cm.1 ++
                            s3.1 ++ hh.1 ++ c1.1 ++ mm.1 ++ c2.1 ++ ss.1

/-- `re.search`: try the pattern at each position, leftmost match wins. -/
def tsSearch : List Char → Option (List Char)
  | [] => none
  | c :: t =>
    match tsPattern (c :: t) with
    | some m => some m
    | none => tsSearch t

/-- `timestamp_pattern.search(entry_text)`, returning the matched text. -/
def searchTimestamp (s : String) : Option String :=
  (tsSearch s.toList).map String.mk

/-! ## `datetime.strptime(s, '%d %b %Y, %H:%M:%S')`

CPython's `_strptime` compiles the format to a regex
(`%d` → `3[01]|[12]\d|0[1-9]|[1-9]`, `%b` → the twelve month
abbreviations case-insensitively, `%Y` → `\d{4}`, `%H` →
`2[0-3]|[0-1]\d|\d`, `%M` → `[0-5]\d|\d`, `%S` → `6[0-1]|[0-5]\d|\d`,
literal whitespace → `\s+`), requires the whole string to be consumed,
and finally the `datetime` constructor validates the field ranges
(year ≥ 1, day against the month length, second ≤ 59). -/

structure Timestamp where
  year : Nat
  month : Nat
  day : Nat
  hour : Nat
  minute : Nat
  second : Nat
deriving DecidableEq, Repr

/-- `%d` alternatives in regex order. -/
def dayCands (l : List Char) : List (Nat × List Char) :=
  (match l with
   | '3' :: c :: t => if c = '0' || c = '1' then [(30 + dval c, t)] else []
   | _ => []) ++
  (match l with
   | a :: b :: t =>
     if (a = '1' || a = '2') && isDigitC b then [(10 * dval a + dval b, t)] else []
   | _ => []) ++
  (match l with
   | '0' :: c :: t => if isDigitC c && c ≠ '0' then [(dval c, t)] else []
   | _ => []) ++
  (match l with
   | c :: t => if isDigitC c && c ≠ '0' then [(dval c, t)] else []
   | _ => [])

/-- `%H` alternatives in regex order. -/
def hourCands (l : List Char) : List (Nat × List Char) :=
  (match l with
   | '2' :: c :: t =>
     if c = '0' || c = '1' || c = '2' || c = '3' then [(20 + dval c, t)] else []
   | _ => []) ++
  (match l with
   | a :: b :: t =>
     if (a = '0' || a = '1') && isDigitC b then [(10 * dval a + dval b, t)] else []
   | _ => []) ++
  (match l with
   | c :: t => if isDigitC c then [(dval c, t)] else []
   | _ => [])

/-- `%M` alternatives in regex order. -/
def minuteCands (l : List Char) : List (Nat × List Char) :=
  (match l with
   | a :: b :: t =>
     if ('0' ≤ a && a ≤ '5') && isDigitC b then [(10 * dval a + dval b, t)] else []
   | _ => []) ++
  (match l with
   | c :: t => if isDigitC c then [(dval c, t)] else []
   | _ => [])

/-- `%S` alternatives in regex order (CPython admits leap seconds 60/61
in the regex; the `datetime` constructor rejects them afterwards). -/
def secondCands (l : List Char) : List (Nat × List Char) :=
  (match l with
   | '6' :: c :: t => if c = '0' || c = '1' then [(60 + dval c, t)] else []
   | _ => []) ++
  (match l with
   | a :: b :: t =>
     if ('0' ≤ a && a ≤ '5') && isDigitC b then [(10 * dval a + dval b, t)] else []
   | _ => []) ++
  (match l with
   | c :: t => if isDigitC c then [(dval c, t)] else []
   | _ => [])

/-- `\s+`: one whitespace character, then greedily all following ones. -/
def ws1 : List Char → Option (List Char)
  | [] => none
  | c :: t => if isSpaceC c then some (t.dropWhile isSpaceC) else none

/-- One literal character, returning only the rest. -/
def mlitU (c : Char) : List Char → Option (List Char)
  | [] => none
  | x :: t => if x = c then some t else none

/-- `%b`: three letters, matched case-insensitively against the month
abbreviations. -/
def monthFromAbbrev : List Char → Option Nat
  | ['j', 'a', 'n'] => some 1
  | ['f', 'e', 'b'] => some 2
  | ['m', 'a', 'r'] => some 3
  | ['a', 'p', 'r'] => some 4
  | ['m', 'a', 'y'] => some 5
  | ['j', 'u', 'n'] => some 6
  | ['j', 'u', 'l'] => some 7
  | ['a', 'u', 'g'] => some 8
  | ['s', 'e', 'p'] => some 9
  | ['o', 'c', 't'] => some 10
  | ['n', 'o', 'v'] => some 11
  | ['d', 'e', 'c'] => some 12
  | _ => none

def pMonth : List Char → Option (Nat × List Char)
  | a :: b :: c :: t =>
    match monthFromAbbrev [a.toLower, b.toLower, c.toLower] with
    | some m => some (m, t)
    | none => none
  | _ => none

def p4year (l : List Char) : Option (Nat × List Char) :=
  (mtake isDigitC 4 l).map fun pr => (natOfDigits pr.1, pr.2)

/-- Gregorian leap-year rule, as used by `datetime`. -/
def isLeap (y : Nat) : Bool := (y % 4 = 0 && y % 100 ≠ 0) || y % 400 = 0

def daysInMonth (y m : Nat) : Nat :=
  if m = 2 then (if isLeap y then 29 else 28)
  else if m = 4 || m = 6 || m = 9 || m = 11 then 30
  else 31

/-- `datetime.strptime(s, '%d %b %Y, %H:%M:%S')`: regex-directed parse
with full consumption, then constructor validation. -/
def strptimeDT (l : List Char) : Option Timestamp :=
  (dayCands l).findSome? fun dc =>
    (ws1 dc.2).bind fun r2 =>
      (pMonth r2).bind fun mp =>
        (ws1 mp.2).bind fun r4 =>
          (p4year r4).bind fun yp =>
            (mlitU ',' yp.2).bind fun r6 =>
              (ws1 r6).bind fun r7 =>
                (hourCands r7).findSome? fun hp =>
                  (mlitU ':' hp.2).bind fun r9 =>
                    (minuteCands r9).findSome? fun mip =>
                      (mlitU ':' mip.2).bind fun r11 =>
                        (secondCands r11).findSome? fun sp =>
                          if sp.2 = [] ∧ 1 ≤ yp.1 ∧ 1 ≤ dc.1 ∧
                              dc.1 ≤ daysInMonth yp.1 mp.1 ∧ sp.1 ≤ 59 then
                            some ⟨yp.1, mp.1, dc.1, hp.1, mip.1, sp.1⟩
                          else none

/-! ## `parse_html_history`

BeautifulSoup itself is modelled at the boundary: an `Entry` is one
`div.content-cell` as the loop body observes it — the `href` of its
first anchor (if any), the text of its previous sibling `div` (empty
string when there is none, as in the source), and its own visible
text.  The `try` around reading and souping is modelled by an input
that is either unreadable (any exception, carrying its rendered text)
or a list of entries. -/

structure Entry where
  linkHref : Option String
  headerText : String
  entryText : String
deriving DecidableEq, Repr

structure PlayRecord where
  videoId : String
  timestamp : Timestamp
deriving DecidableEq, Repr

/-- `href.split("watch?v=")[-1].split("&")[0]`. -/
def extractVideoId (href : String) : String :=
  (splitOnStr ((splitOnStr href "watch?v=").getLastD "") "&").headD ""

/-- The loop body of `parse_html_history` for one entry: anchor and
`watch?v=` required, then the music classification (substring tests, as
in the source), then timestamp search, `Sept` → `Sep` normalization and
`strptime`; any failure skips the entry. -/
def processEntry (e : Entry) : Option PlayRecord :=
  match e.linkHref with
  | none => none
  | some href =>
    if strContains href "watch?v=" = false then none
    else if (strContains href "music.youtube.com" ||
             strContains e.headerText "YouTube Music") = false then none
    else
      let video_id := extractVideoId href
      match searchTimestamp e.entryText with
      | none => none
      | some m =>
        match strptimeDT ((replaceStr m "Sept" "Sep").toList) with
        | none => none
        | some ts => some ⟨video_id, ts⟩

inductive RawHtml where
  | unreadable (err : String)
  | entryList (entries : List Entry)

/-- What `parse_html_history` hands back: the value returned to the
caller (`None` on both failure paths, the records otherwise) and the
`st.error` messages it displayed. -/
structure ParseOutcome where
  result : Option (List PlayRecord)
  errors : List String
deriving DecidableEq, Repr

def parse_html_history : RawHtml → ParseOutcome
  | .unreadable e =>
    ⟨none, ["An unexpected error occurred during HTML parsing. Error: " ++ e]⟩
  | .entryList es =>
    let records := es.filterMap processEntry
    if records = [] then
      ⟨none, ["Could not parse any valid music entries from the HTML file."]⟩
    else ⟨some records, []⟩

/-- Modelled from the spec: the host component of a URL — the text
between the scheme separator `://` and the next `/`.  This definition
follows the specification's words ("the link target's host component
equals `music.youtube.com`"); the source itself performs only a
substring test, and the two are compared in the C4 theorems. -/
def specHost (url : String) : String :=
  let afterScheme :=
    if strContains url "://" then (splitOnStr url "://").getD 1 "" else url
  ((splitOnStr afterScheme "/").headD "")

/-! ## `isodate.parse_duration(...).total_seconds()`

isodate matches the ISO-8601 duration grammar
`[±]P [nY] [nM] [nW] [nD] [T [nH] [nM] [nS]]` (each number with an
optional `.`/`,` fraction), anchored on both sides, with the extra
requirement that `P` is followed by a word character; an input that
does not match raises `ISO8601Error` (modelled as `none`).  Durations
with a year or month component yield an `isodate.Duration` object
rather than a plain `timedelta`; YouTube video durations never contain
them, and the model treats them as unparsable. -/

/-- A matched decimal number `[0-9]+([.,][0-9]+)?` kept at digit
level: integer part, fraction digits value and fraction length.  The
denoted rational is `numVal`. -/
structure NumV where
  ip : Nat
  fnum : Nat
  flen : Nat
deriving DecidableEq, Repr

def numVal (n : NumV) : ℚ := (n.ip : ℚ) + (n.fnum : ℚ) / ((10 : ℚ) ^ n.flen)

/-- A number is (numerically) zero iff all its digits are zero. -/
def numIsZero (n : NumV) : Bool := n.ip = 0 && n.fnum = 0

/-- Parse `[0-9]+([.,][0-9]+)?`; if a separator follows the digits
without further digits, the fractional group is not taken (regex
backtracking). -/
def parseNum (l : List Char) : Option (NumV × List Char) :=
  let ds := l.takeWhile isDigitC
  let r1 := l.dropWhile isDigitC
  if ds = [] then none
  else
    match r1 with
    | c :: r2 =>
      if c = '.' || c = ',' then
        let fs := r2.takeWhile isDigitC
        let r3 := r2.dropWhile isDigitC
        if fs = [] then some (⟨natOfDigits ds, 0, 0⟩, r1)
        else some (⟨natOfDigits ds, natOfDigits fs, fs.length⟩, r3)
      else some (⟨natOfDigits ds, 0, 0⟩, r1)
    | [] => some (⟨natOfDigits ds, 0, 0⟩, r1)

/-- One optional duration component `number` + unit letter `u`; when
the number or the unit does not match, nothing is consumed and the
component counts as zero. -/
def parseComp (u : Char) (l : List Char) : NumV × List Char :=
  match parseNum l with
  | some (q, r) =>
    match r with
    | c :: r2 => if c = u then (q, r2) else (⟨0, 0, 0⟩, l)
    | [] => (⟨0, 0, 0⟩, l)
  | none => (⟨0, 0, 0⟩, l)

/-- Digit-level parse of an ISO-8601 duration: sign (`true` =
negative) and the week/day/hour/minute/second components.  `none`
exactly when isodate raises `ISO8601Error` (or produces a
year/month-bearing `Duration`, see above). -/
def parseDurParts (s : String) : Option (Bool × NumV × NumV × NumV × NumV × NumV) :=
  let l0 := s.toList
  let (neg, l1) :=
    match l0 with
    | '+' :: t => (false, t)
    | '-' :: t => (true, t)
    | _ => (false, l0)
  match l1 with
  | 'P' :: c :: rest =>
    if isWordC c then
      let l2 := c :: rest
      let (y, l3) := parseComp 'Y' l2
      let (mo, l4) := parseComp 'M' l3
      let (w, l5) := parseComp 'W' l4
      let (d, l6) := parseComp 'D' l5
      let (h, mi, se, l9) :=
        match l6 with
        | 'T' :: l7 =>
          let (h, l8a) := parseComp 'H' l7
          let (mi, l8b) := parseComp 'M' l8a
          let (se, l8c) := parseComp 'S' l8b
          (h, mi, se, l8c)
        | _ => (⟨0, 0, 0⟩, ⟨0, 0, 0⟩, ⟨0, 0, 0⟩, l6)
      if l9 = [] ∧ numIsZero y ∧ numIsZero mo then
        some (neg, w, d, h, mi, se)
      else none
    else none
  | _ => none

/-- `timedelta.total_seconds()` of the parsed components. -/
def durSeconds (p : Bool × NumV × NumV × NumV × NumV × NumV) : ℚ :=
  (if p.1 then (-1 : ℚ) else 1) *
    (numVal p.2.1 * 604800 + numVal p.2.2.1 * 86400 + numVal p.2.2.2.1 * 3600 +
      numVal p.2.2.2.2.1 * 60 + numVal p.2.2.2.2.2)

/-- Total seconds of an ISO-8601 duration string, `none` on parse
failure. -/
def parse_duration (s : String) : Option ℚ := (parseDurParts s).map durSeconds

/-! ## `fetch_video_metadata`

The YouTube client is modelled as a function from the id list of one
batch request to either an `HttpError` or the response's `items`.  A
response item carries the fields the loop body reads (each optional: a
missing field raises `KeyError` and skips the item) plus the
`categoryId` that the real API returns in `snippet` — the code never
reads it.  The Python dict `metadata` is an insertion-ordered
association list with overwriting assignment. -/

structure RawItem where
  id : Option String
  duration : Option String
  title : Option String
  channelTitle : Option String
  categoryId : Option String
deriving DecidableEq, Repr

/-- One value of the `metadata` dict:
`{"duration_sec": ..., "title": ..., "artist": ...}`.  `duration_sec`
is optional at the type level so that the enricher's `dropna` step can
be stated over arbitrary metadata inputs; the fetcher always stores a
numeric value. -/
structure Meta where
  duration_sec : Option ℚ
  title : String
  artist : String
deriving DecidableEq, Repr

abbrev Dict := List (String × Meta)

/-- Python dict assignment `m[k] = v`: overwrite in place if the key
exists (keeping its position), else append. -/
def dictInsert (m : Dict) (k : String) (v : Meta) : Dict :=
  if m.any (fun p => p.1 = k) then
    m.map (fun p => if p.1 = k then (k, v) else p)
  else m ++ [(k, v)]

def dictLookup (m : Dict) (k : String) : Option Meta :=
  (m.find? (fun p => p.1 = k)).map (fun p => p.2)

/-- Body of `for item in response.get("items", [])`: read the fields,
parse the duration, store; `KeyError` / `ISO8601Error` skips the item. -/
def processItem (m : Dict) (it : RawItem) : Dict :=
  match it.id, it.duration, it.title, it.channelTitle with
  | some v, some ds, some t, some c =>
    match parse_duration ds with
    | some secs => dictInsert m v ⟨some secs, t, c⟩
    | none => m
  | _, _, _, _ => m

abbrev Client := List String → Except Unit (List RawItem)

/-- What one run of `fetch_video_metadata` produces: the metadata
dict returned to the caller, the `(processed_count, bar_progress)`
pairs pushed to the progress bar, and the id list of every batch
request issued. -/
structure FetchOut where
  metadata : Dict
  reports : List (Nat × Int)
  requests : List (List String)
deriving DecidableEq, Repr

/-- The batch loop `for i in range(0, total_videos, 50)`: slice the
next 50 ids, issue the request; on `HttpError` skip the batch (neither
items nor the progress update run, `continue`); otherwise process the
items and report `processed = min(i+50, total)` mapped into `[10, 90]`
by `int(10 + fraction * 80)`.  Recursion is driven by a fuel counter
(the loop removes 50 ids per iteration while the fuel drops by 1, so
any fuel ≥ the list length gives the loop's behaviour). -/
def fetchGo (client : Client) (total : Nat) :
    Nat → List String → Nat → Dict → FetchOut
  | 0, _, _, m => ⟨m, [], []⟩
  | _ + 1, [], _, m => ⟨m, [], []⟩
  | fuel + 1, x :: xs, i, m =>
    let batch := (x :: xs).take 50
    let rest := (x :: xs).drop 50
    match client batch with
    | .error _ =>
      let out := fetchGo client total fuel rest (i + 50) m
      ⟨out.metadata, out.reports, batch :: out.requests⟩
    | .ok items =>
      let m2 := items.foldl processItem m
      let processed := min (i + 50) total
      let pct : ℚ := if total > 0 then (processed : ℚ) / (total : ℚ) else 0
      let bar : Int := Rat.floor (10 + pct * 80)
      let out := fetchGo client total fuel rest (i + 50) m2
      ⟨out.metadata, (processed, bar) :: out.reports, batch :: out.requests⟩

def fetch_video_metadata (client : Client) (video_ids : List String) : FetchOut :=
  fetchGo client video_ids.length video_ids.length video_ids 0 []

/-- The 50-id batches the loop slices out of the input list (same fuel
device as `fetchGo`). -/
def chunksGo : Nat → List String → List (List String)
  | 0, _ => []
  | _ + 1, [] => []
  | fuel + 1, x :: xs => (x :: xs).take 50 :: chunksGo fuel ((x :: xs).drop 50)

def chunks50 (l : List String) : List (List String) := chunksGo l.length l

/-! ## `analyze_data` (Enricher/Filter) -/

def MINIMUM_SONG_DURATION_SECONDS : ℚ := 60
def MAXIMUM_SONG_DURATION_MINUTES : ℚ := 7

/-- Days since 1970-01-01 of a Gregorian date (Howard Hinnant's civil
algorithm), used for the week key. -/
def daysFromCivil (y m d : Int) : Int :=
  let y2 := if m ≤ 2 then y - 1 else y
  let era := (if 0 ≤ y2 then y2 else y2 - 399) / 400
  let yoe := y2 - era * 400
  let mp := (m + 9) % 12
  let doy := (153 * mp + 2) / 5 + d - 1
  let doe := yoe * 365 + yoe / 4 - yoe / 100 + doy
  era * 146097 + doe - 719468

/-- `timestamp.dt.to_period('M')` as an ordinal month key; consecutive
months differ by one, so `- 1` is the previous month. -/
def monthKeyOf (t : Timestamp) : Int := (t.year : Int) * 12 + (t.month : Int) - 1

/-- `timestamp.dt.to_period('W')` as an ordinal week key (weeks ending
Sunday); consecutive weeks differ by one. -/
def weekKeyOf (t : Timestamp) : Int :=
  (daysFromCivil (t.year : Int) (t.month : Int) (t.day : Int) + 3) / 7

/-- One row of the enriched dataframe produced by `analyze_data`.  The
`hour` column does not exist yet (`none`); `get_summary_for_period`
adds it. -/
structure Row where
  videoId : String
  timestamp : Timestamp
  duration_sec : ℚ
  title : String
  artist : String
  duration_min : ℚ
  capped_duration_min : ℚ
  month : Int
  week : Int
  hour : Option Nat
deriving DecidableEq, Repr

instance : Inhabited Row :=
  ⟨{ videoId := "", timestamp := ⟨1, 1, 1, 0, 0, 0⟩, duration_sec := 0,
     title := "", artist := "", duration_min := 0, capped_duration_min := 0,
     month := 0, week := 0, hour := none }⟩

/-- `history_df.join(meta_df, on="videoId")` followed by
`dropna(subset=["duration_sec"])`, the `>= 60` filter and the derived
columns.  Returns `(dataframe-or-None, pre_filter_count)` exactly as
the source. -/
def analyze_data (history : Option (List PlayRecord)) (metadata : Dict) :
    Option (List Row) × Nat :=
  match history with
  | none => (none, 0)
  | some h =>
    if metadata = [] then (none, 0)
    else
      let afterDropna :=
        h.filterMap fun e =>
          (dictLookup metadata e.videoId).bind fun m =>
            m.duration_sec.map fun dsec => (e, m, dsec)
      let pre_filter_count := afterDropna.length
      let filtered :=
        afterDropna.filter fun x => MINIMUM_SONG_DURATION_SECONDS ≤ x.2.2
      if filtered = [] then (none, pre_filter_count)
      else
        let rows := filtered.map fun x =>
          { videoId := x.1.videoId
            timestamp := x.1.timestamp
            duration_sec := x.2.2
            title := x.2.1.title
            artist := x.2.1.artist
            duration_min := x.2.2 / 60
            capped_duration_min := min (x.2.2 / 60) MAXIMUM_SONG_DURATION_MINUTES
            month := monthKeyOf x.1.timestamp
            week := weekKeyOf x.1.timestamp
            hour := none : Row }
        (some rows, pre_filter_count)

/-! ## `get_summary_for_period` (PeriodAggregator) -/

/-- `df["capped_duration_min"].sum()`. -/
def sumCapped (l : List Row) : ℚ := (l.map (fun r => r.capped_duration_min)).sum

/-- Round half to even at integer precision (what `%.1f` does to the
tenths digit, modelled over `ℚ`). -/
def rhe (q : ℚ) : Int :=
  let n := Rat.floor q
  let frac := q - (n : ℚ)
  if frac > 1 / 2 then n + 1
  else if frac < 1 / 2 then n
  else if n % 2 = 0 then n else n + 1

/-- Python `f"{g:+.1f}"`: explicit sign and exactly one decimal digit. -/
def formatQ1 (q : ℚ) : String :=
  let sgn := if q < 0 then "-" else "+"
  let m := (rhe (|q| * 10)).toNat
  sgn ++ toString (m / 10) ++ "." ++ toString (m % 10)

/-- `previous_period.strftime('%B')`: the English month name of an
ordinal month key. -/
def monthNameOf (k : Int) : String :=
  match (k % 12).toNat with
  | 0 => "January"
  | 1 => "February"
  | 2 => "March"
  | 3 => "April"
  | 4 => "May"
  | 5 => "June"
  | 6 => "July"
  | 7 => "August"
  | 8 => "September"
  | 9 => "October"
  | 10 => "November"
  | _ => "December"

/-- Lines 120–135 of the source: the `growth_text` computation.
`iloc[0]` is the first row of the (non-empty) subset. -/
def growthTextOf (df full_df : List Row) (granularity : String) : Option String :=
  if granularity = "Overall" then none
  else
    let current_total := sumCapped df
    let pr :=
      if granularity = "By Month" then
        let current_period := (df.headD default).month
        let previous_period := current_period - 1
        (sumCapped (full_df.filter (fun r => r.month = previous_period)),
         monthNameOf previous_period)
      else
        let current_period := (df.headD default).week
        let previous_period := current_period - 1
        (sumCapped (full_df.filter (fun r => r.week = previous_period)),
         "previous week")
    if pr.1 > 0 then
      some (formatQ1 ((current_total - pr.1) / pr.1 * 100) ++ "% vs " ++ pr.2)
    else some "First period of data"

/-- Stable insertion of `x` in front of the first strictly smaller
element (descending sort by `f`, ties keep encounter order — pandas
`nlargest` / stable sort). -/
def insDesc (f : α → ℚ) (x : α) : List α → List α
  | [] => [x]
  | y :: t => if f y < f x then x :: y :: t else y :: insDesc f x t

def sortDesc (f : α → ℚ) (l : List α) : List α := l.foldr (insDesc f) []

/-- Stable insertion for an ascending boolean order. -/
def insAscBy (lt : α → α → Bool) (x : α) : List α → List α
  | [] => [x]
  | y :: t => if lt x y then x :: y :: t else y :: insAscBy lt x t

def sortAscBy (lt : α → α → Bool) (l : List α) : List α := l.foldr (insAscBy lt) []

/-- `df.groupby(key)` with pandas' default `sort=True`: group keys in
ascending order, each with its member rows in encounter order. -/
def groupBySorted [DecidableEq K] (key : Row → K) (lt : K → K → Bool)
    (df : List Row) : List (K × List Row) :=
  (sortAscBy lt (df.map key).dedup).map fun k => (k, df.filter (fun r => key r = k))

def strLt (a b : String) : Bool := decide (a < b)

/-- `df.groupby('title').agg(total_minutes=..., play_count=...)` plus
the listen score, sorted descending by score: entries are
`(title, total_minutes, play_count, listen_score)`. -/
def songAggOf (df : List Row) : List (String × ℚ × Nat × ℚ) :=
  let groups := groupBySorted (fun r => r.title) strLt df
  let agg := groups.map fun g =>
    (g.1, sumCapped g.2, g.2.length, ((g.2.length : ℚ) * sumCapped g.2))
  sortDesc (fun x => x.2.2.2) agg

/-- `df.groupby("artist")["capped_duration_min"].sum()` sorted
descending (as `nlargest` returns it). -/
def artistAggOf (df : List Row) : List (String × ℚ) :=
  let groups := groupBySorted (fun r => r.artist) strLt df
  sortDesc (fun x => x.2) (groups.map fun g => (g.1, sumCapped g.2))

def dateOf (t : Timestamp) : Nat × Nat × Nat := (t.year, t.month, t.day)

def dateLt (a b : Nat × Nat × Nat) : Bool :=
  a.1 < b.1 || (a.1 = b.1 && (a.2.1 < b.2.1 || (a.2.1 = b.2.1 && a.2.2 < b.2.2)))

/-- `df.groupby(df["timestamp"].dt.date)["capped_duration_min"].sum()`. -/
def byDayOf (df : List Row) : List ((Nat × Nat × Nat) × ℚ) :=
  (groupBySorted (fun r => dateOf r.timestamp) dateLt df).map fun g =>
    (g.1, sumCapped g.2)

/-- `df["hour"] = df["timestamp"].dt.hour` for one row. -/
def setHour (r : Row) : Row := { r with hour := some r.timestamp.hour }

def nightName : String := "Night (0-6)"
def morningName : String := "Morning (6-12)"
def afternoonName : String := "Afternoon (12-18)"
def eveningName : String := "Evening (18-24)"

def bucketNames : List String := [nightName, morningName, afternoonName, eveningName]

/-- `pd.cut(df['hour'], bins=[-1, 5, 11, 17, 23], labels=[...])` for a
single hour value: half-open-from-above bins `(-1,5] (5,11] (11,17]
(17,23]`; values outside every bin become `NaN` (`none`) and drop out
of the groupby. -/
def bucketLabel (h : Nat) : Option String :=
  if h ≤ 5 then some nightName
  else if h ≤ 11 then some morningName
  else if h ≤ 17 then some afternoonName
  else if h ≤ 23 then some eveningName
  else none

def rowBucket (r : Row) : Option String := r.hour.bind bucketLabel

/-- `df.groupby(pd.cut(...))['capped_duration_min'].sum().to_dict()`:
grouping by a categorical keeps every category, in category order,
with sum `0` for empty groups. -/
def timeBucketsOf (df : List Row) : List (String × ℚ) :=
  bucketNames.map fun nm =>
    (nm, sumCapped (df.filter (fun r => rowBucket r = some nm)))

structure Summary where
  total_minutes : ℚ
  growth_text : Option String
  fav_song : String
  fav_song_duration : ℚ
  top_songs : List (String × ℚ × Nat × ℚ)
  fav_artist : String
  fav_artist_duration : ℚ
  top_artists : List (String × ℚ)
  by_day : List ((Nat × Nat × Nat) × ℚ)
  total_period_minutes : ℚ
  chart_period_label : String
  time_buckets : List (String × ℚ)
deriving DecidableEq, Repr

/-- `get_summary_for_period(df, period_label, full_df, granularity)`.
The function mutates its input dataframe by adding the `hour` column
(line 150 of the source); that in-place update is made explicit as the
second component of the result — the state of `df` after the call. -/
def get_summary_for_period (df : List Row) (period_label : String)
    (full_df : List Row) (granularity : String) : Option Summary × List Row :=
  match df with
  | [] => (none, [])
  | r :: rest =>
    let d := r :: rest
    let song_agg := songAggOf d
    let artist_agg := artistAggOf d
    let d2 := d.map setHour
    (some
      { total_minutes := sumCapped d
        growth_text := growthTextOf d full_df granularity
        fav_song := match song_agg with
          | [] => "N/A"
          | x :: _ => x.1
        fav_song_duration := match song_agg with
          | [] => 0
          | x :: _ => x.2.1
        top_songs := song_agg.take 10
        fav_artist := match artist_agg with
          | [] => "N/A"
          | x :: _ => x.1
        fav_artist_duration := match artist_agg with
          | [] => 0
          | x :: _ => x.2
        top_artists := artist_agg.take 10
        by_day := byDayOf d
        total_period_minutes := sumCapped d
        chart_period_label := period_label
        time_buckets := timeBucketsOf d2 }, d2)

/-! # Claim theorems -/

/-! ## C4 — music classification of parsed entries -/

/-- C4 (counterexample): the claim says a `PlayEvent` is produced only
if the link target's *host component equals* `music.youtube.com` or
the header block contains `YouTube Music`.  This concrete entry's link
has host `www.youtube.com` and its header lacks the label, yet the
parser produces a play event, because the source only tests
`"music.youtube.com" in href` — a substring check that the query
parameter satisfies. -/
theorem c4_host_equality_counterexample :
    processEntry
        { linkHref := some "https://www.youtube.com/watch?v=abc&feature=music.youtube.com",
          headerText := "YouTube",
          entryText := "15 Jan 2024, 10:00:00" } =
      some { videoId := "abc", timestamp := ⟨2024, 1, 15, 10, 0, 0⟩ } ∧
    specHost "https://www.youtube.com/watch?v=abc&feature=music.youtube.com" =
      "www.youtube.com" ∧
    "www.youtube.com" ≠ "music.youtube.com" ∧
    strContains "YouTube" "YouTube Music" = false := by
  refine ⟨by decide, by decide, by decide, by decide⟩

/-- C4 (amended): a markup entry containing an anchor whose link
target contains `watch?v=` yields a `PlayEvent` only if the link
target *contains the substring* `music.youtube.com` (not necessarily
as its host) or the associated header text contains `YouTube Music`;
an entry failing both substring checks is silently skipped and yields
no event. -/
theorem c4_music_classification :
    (∀ e ev, processEntry e = some ev →
      ∃ href, e.linkHref = some href ∧ strContains href "watch?v=" = true ∧
        (strContains href "music.youtube.com" = true ∨
         strContains e.headerText "YouTube Music" = true)) ∧
    (∀ e, (∀ href, e.linkHref = some href →
        strContains href "music.youtube.com" = false ∧
        strContains e.headerText "YouTube Music" = false) →
      processEntry e = none) := by
  constructor
  · rintro ⟨lh, hd, et⟩ ev hev
    cases lh with
    | none => simp [processEntry] at hev
    | some href =>
      simp only [processEntry] at hev
      refine ⟨href, rfl, ?_, ?_⟩
      · by_cases h1 : strContains href "watch?v=" = false
        · rw [if_pos h1] at hev; exact absurd hev (by simp)
        · simpa using h1
      · by_cases h1 : strContains href "watch?v=" = false
        · rw [if_pos h1] at hev; exact absurd hev (by simp)
        · rw [if_neg h1] at hev
          by_cases h2 : (strContains href "music.youtube.com" ||
              strContains hd "YouTube Music") = false
          · rw [if_pos h2] at hev; exact absurd hev (by simp)
          · simp only [Bool.not_eq_false, Bool.or_eq_true] at h2
            exact h2
  · rintro ⟨lh, hd, et⟩ hno
    cases lh with
    | none => rfl
    | some href =>
      obtain ⟨hm, hh⟩ := hno href rfl
      simp only [processEntry]
      by_cases h1 : strContains href "watch?v=" = false
      · rw [if_pos h1]
      · rw [if_neg h1, if_pos (by rw [hm, hh]; rfl)]

/-- C4 (witness): the amended theorem applied at concrete entries —
an entry whose link contains the substring is classified as music and
parsed; an entry with neither substring is skipped. -/
theorem c4_witness :
    processEntry
        { linkHref := some "https://www.youtube.com/watch?v=zz",
          headerText := "History",
          entryText := "15 Jan 2024, 10:00:00" } = none ∧
    strContains "https://music.youtube.com/watch?v=xyz" "music.youtube.com" = true := by
  refine ⟨c4_music_classification.2 _ ?_, by decide⟩
  intro href h
  have : href = "https://www.youtube.com/watch?v=zz" := by
    simpa using h.symm
  subst this
  exact ⟨by decide, by decide⟩

/-! ## C6 — parser failure modes -/

/-- C6 (counterexample): the claim says the two failure kinds
(unparseable markup, zero qualifying entries) are distinguishable *by
the caller*.  Both failure paths return `None` to the caller — the
caller-visible value is identical; only the displayed error messages
differ. -/
theorem c6_caller_distinguishability_counterexample :
    (parse_html_history (.unreadable "boom")).result = none ∧
    (parse_html_history (.entryList [])).result = none ∧
    (parse_html_history (.unreadable "boom")).result =
      (parse_html_history (.entryList [])).result ∧
    (parse_html_history (.unreadable "boom")).errors ≠
      (parse_html_history (.entryList [])).errors := by
  refine ⟨rfl, rfl, rfl, by decide⟩

/-- C6 (amended): the parser fails (returns `None`) exactly when the
input is unreadable as markup or when zero qualifying entries are
found; on any other input it returns the sequence of play events.  The
two failure kinds display distinct error messages, but the value
returned to the caller is `None` in both cases, so the caller cannot
distinguish them from the return value. -/
theorem c6_failure_modes :
    (∀ err, (parse_html_history (.unreadable err)).result = none ∧
      (parse_html_history (.unreadable err)).errors =
        ["An unexpected error occurred during HTML parsing. Error: " ++ err]) ∧
    (∀ es, ((parse_html_history (.entryList es)).result = none ↔
        es.filterMap processEntry = []) ∧
      (es.filterMap processEntry = [] →
        (parse_html_history (.entryList es)).errors =
          ["Could not parse any valid music entries from the HTML file."]) ∧
      (es.filterMap processEntry ≠ [] →
        parse_html_history (.entryList es) =
          ⟨some (es.filterMap processEntry), []⟩)) ∧
    (∀ err es, es.filterMap processEntry = [] →
      (parse_html_history (.unreadable err)).result =
        (parse_html_history (.entryList es)).result ∧
      (parse_html_history (.unreadable err)).errors ≠
        (parse_html_history (.entryList es)).errors) := by
  refine ⟨fun err => ⟨rfl, rfl⟩, fun es => ⟨?_, ?_, ?_⟩, fun err es h => ⟨?_, ?_⟩⟩
  · unfold parse_html_history
    by_cases h : es.filterMap processEntry = []
    · simp [h]
    · simp [h]
  · intro h; unfold parse_html_history; simp [h]
  · intro h; unfold parse_html_history; simp [h]
  · unfold parse_html_history; simp [h]
  · unfold parse_html_history
    simp only [h, if_pos]
    intro hcontra
    have : "An unexpected error occurred during HTML parsing. Error: " ++ err =
        "Could not parse any valid music entries from the HTML file." := by
      simpa using hcontra
    have hchar := congrArg (fun s => s.toList.head?) this
    simp [String.toList, String.append] at hchar

/-- C6 (witness): the amended theorem applied at concrete inputs. -/
theorem c6_witness :
    ([(⟨none, "", ""⟩ : Entry)].filterMap processEntry = []) ∧
    (parse_html_history (.unreadable "oops")).result =
      (parse_html_history (.entryList [⟨none, "", ""⟩])).result := by
  exact ⟨by decide, (c6_failure_modes.2.2 "oops" [⟨none, "", ""⟩] (by decide)).1⟩

/-! ## C3 — enrichment invariant -/

/-- C3: every row of the enriched set produced by `analyze_data` comes
from an input event whose id resolves to a metadata entry with a
present (non-null) numeric duration ≥ 60 seconds, and carries that
entry's title/artist; conversely, an event whose id has no metadata
match, a missing duration, or a duration < 60 contributes no row — it
is excluded entirely, never retained partially. -/
theorem c3_enrichment_invariant (h : List PlayRecord) (md : Dict)
    (df : List Row) (n : Nat) (heq : analyze_data (some h) md = (some df, n)) :
    (∀ r ∈ df, ∃ e, e ∈ h ∧ ∃ m, dictLookup md e.videoId = some m ∧
      r.videoId = e.videoId ∧ r.timestamp = e.timestamp ∧
      m.duration_sec = some r.duration_sec ∧ r.title = m.title ∧
      r.artist = m.artist ∧ MINIMUM_SONG_DURATION_SECONDS ≤ r.duration_sec ∧
      r.duration_min = r.duration_sec / 60 ∧
      r.capped_duration_min = min r.duration_min MAXIMUM_SONG_DURATION_MINUTES) ∧
    (∀ e ∈ h, (dictLookup md e.videoId = none ∨
        ∃ m, dictLookup md e.videoId = some m ∧
          (m.duration_sec = none ∨
           ∃ dq, m.duration_sec = some dq ∧ dq < MINIMUM_SONG_DURATION_SECONDS)) →
      ∀ r ∈ df, r.videoId ≠ e.videoId) := by
  by_cases hmd : md = []
  · simp [analyze_data, hmd] at heq
  · simp only [analyze_data, if_neg hmd] at heq
    by_cases hf : (h.filterMap fun e =>
        (dictLookup md e.videoId).bind fun m =>
          m.duration_sec.map fun dsec => (e, m, dsec)).filter
          (fun x => MINIMUM_SONG_DURATION_SECONDS ≤ x.2.2) = []
    · rw [if_pos hf] at heq
      exact absurd (congrArg Prod.fst heq) (by simp)
    · rw [if_neg hf] at heq
      have hdf := congrArg Prod.fst heq
      simp only at hdf
      have hdf' := Option.some.inj hdf
      have main : ∀ r ∈ df, ∃ e, e ∈ h ∧ ∃ m, dictLookup md e.videoId = some m ∧
          r.videoId = e.videoId ∧ r.timestamp = e.timestamp ∧
          m.duration_sec = some r.duration_sec ∧ r.title = m.title ∧
          r.artist = m.artist ∧ MINIMUM_SONG_DURATION_SECONDS ≤ r.duration_sec ∧
          r.duration_min = r.duration_sec / 60 ∧
          r.capped_duration_min = min r.duration_min MAXIMUM_SONG_DURATION_MINUTES := by
        intro r hr
        rw [← hdf'] at hr
        rw [List.mem_map] at hr
        obtain ⟨x, hx, hrx⟩ := hr
        rw [List.mem_filter] at hx
        obtain ⟨hx1, hx2⟩ := hx
        rw [List.mem_filterMap] at hx1
        obtain ⟨e, he, hge⟩ := hx1
        cases hm : dictLookup md e.videoId with
        | none => rw [hm, Option.none_bind] at hge; exact absurd hge (by simp)
        | some m =>
          rw [hm, Option.some_bind] at hge
          cases hds : m.duration_sec with
          | none => rw [hds, Option.map_none'] at hge; exact absurd hge (by simp)
          | some dsec =>
            rw [hds, Option.map_some'] at hge
            have hx' := Option.some.inj hge
            subst hx'
            subst hrx
            refine ⟨e, he, m, hm, rfl, rfl, hds, rfl, rfl, ?_, rfl, rfl⟩
            exact of_decide_eq_true hx2
      refine ⟨main, ?_⟩
      intro e he hbad r hr hveq
      obtain ⟨e', _, m', hm', hv', _, hds', _, _, hge', _, _⟩ := main r hr
      rw [hveq] at hv'
      rw [hv'] at hbad
      rcases hbad with hnone | ⟨m'', hm'', hbad''⟩
      · rw [hm'] at hnone; exact absurd hnone (by simp)
      · rw [hm'] at hm''
        have := Option.some.inj hm''
        subst this
        rcases hbad'' with hdn | ⟨dq, hdq, hlt⟩
        · rw [hds'] at hdn; exact absurd hdn (by simp)
        · rw [hds'] at hdq
          have := Option.some.inj hdq
          subst this
          exact absurd hge' (not_le.mpr hlt)

/-- C3 (witness): the invariant applied to a concrete run — one
180-second event with matching metadata survives with the derived
fields, and a 30-second event is excluded. -/
theorem c3_witness :
    (analyze_data
        (some [⟨"a", ⟨2024, 1, 15, 10, 0, 0⟩⟩, ⟨"b", ⟨2024, 1, 17, 3, 0, 0⟩⟩])
        [("a", ⟨some 120, "T", "A"⟩), ("b", ⟨some 30, "S", "B"⟩)] =
      (some [{ videoId := "a", timestamp := ⟨2024, 1, 15, 10, 0, 0⟩,
               duration_sec := 120, title := "T", artist := "A",
               duration_min := 2, capped_duration_min := 2,
               month := 24288, week := 2820, hour := none }], 2)) ∧
    MINIMUM_SONG_DURATION_SECONDS ≤ (120 : ℚ) := by
  constructor
  · norm_num [analyze_data, dictLookup, List.find?, MINIMUM_SONG_DURATION_SECONDS,
      MAXIMUM_SONG_DURATION_MINUTES, monthKeyOf, weekKeyOf, daysFromCivil,
      List.filterMap, List.filter]
    decide
  · have H := (c3_enrichment_invariant
      [⟨"a", ⟨2024, 1, 15, 10, 0, 0⟩⟩, ⟨"b", ⟨2024, 1, 17, 3, 0, 0⟩⟩]
      [("a", ⟨some 120, "T", "A"⟩), ("b", ⟨some 30, "S", "B"⟩)]
      [{ videoId := "a", timestamp := ⟨2024, 1, 15, 10, 0, 0⟩,
         duration_sec := 120, title := "T", artist := "A",
         duration_min := 2, capped_duration_min := 2,
         month := 24288, week := 2820, hour := none }] 2
      (by
        norm_num [analyze_data, dictLookup, List.find?,
          MINIMUM_SONG_DURATION_SECONDS, MAXIMUM_SONG_DURATION_MINUTES,
          monthKeyOf, weekKeyOf, daysFromCivil, List.filterMap, List.filter]
        decide)).1
      { videoId := "a", timestamp := ⟨2024, 1, 15, 10, 0, 0⟩,
        duration_sec := 120, title := "T", artist := "A",
        duration_min := 2, capped_duration_min := 2,
        month := 24288, week := 2820, hour := none } (by simp)
    obtain ⟨e, _, m, _, _, _, _, _, _, hge, _, _⟩ := H
    exact hge

/-! ## C1 — growth text -/

/-- `%+.1f` always yields an explicit sign and exactly one decimal
digit. -/
theorem formatQ1_shape (q : ℚ) : ∃ ip dp : Nat, dp < 10 ∧
    formatQ1 q = (if q < 0 then "-" else "+") ++ toString ip ++ "." ++ toString dp :=
  ⟨(rhe (|q| * 10)).toNat / 10, (rhe (|q| * 10)).toNat % 10,
    Nat.mod_lt _ (by norm_num), rfl⟩

/-- C1: for a non-empty subset, the growth text for `By Month` /
`By Week` is computed from the preceding period's total of
`capped_duration_min` over the full set: when that total is positive
the text is `(current - previous) / previous * 100` formatted with an
explicit sign and exactly one decimal (`formatQ1`) followed by the
preceding period's label; when it is zero the text is the sentinel
`"First period of data"` (no division).  For `Overall` no growth
figure is produced.  (Float formatting is modelled over `ℚ`.) -/
theorem c1_growth_text (r : Row) (rest full : List Row) (lbl : String) :
    ((get_summary_for_period (r :: rest) lbl full "By Month").1.bind
        Summary.growth_text =
      (if sumCapped (full.filter fun x => x.month = r.month - 1) > 0 then
        some (formatQ1 ((sumCapped (r :: rest) -
            sumCapped (full.filter fun x => x.month = r.month - 1)) /
            sumCapped (full.filter fun x => x.month = r.month - 1) * 100) ++
          "% vs " ++ monthNameOf (r.month - 1))
      else some "First period of data")) ∧
    ((get_summary_for_period (r :: rest) lbl full "By Week").1.bind
        Summary.growth_text =
      (if sumCapped (full.filter fun x => x.week = r.week - 1) > 0 then
        some (formatQ1 ((sumCapped (r :: rest) -
            sumCapped (full.filter fun x => x.week = r.week - 1)) /
            sumCapped (full.filter fun x => x.week = r.week - 1) * 100) ++
          "% vs " ++ "previous week")
      else some "First period of data")) ∧
    ((get_summary_for_period (r :: rest) lbl full "Overall").1.bind
        Summary.growth_text = none) ∧
    ((get_summary_for_period (r :: rest) lbl full "Overall").1.isSome = true) ∧
    (∀ q : ℚ, ∃ ip dp : Nat, dp < 10 ∧
      formatQ1 q = (if q < 0 then "-" else "+") ++ toString ip ++ "." ++ toString dp) := by
  refine ⟨?_, ?_, ?_, ?_, formatQ1_shape⟩
  · simp [get_summary_for_period, growthTextOf]
  · simp [get_summary_for_period, growthTextOf]
  · simp [get_summary_for_period, growthTextOf]
  · simp [get_summary_for_period]

/-! ## C10 — period key from the first event only -/

/-- C10: for `By Month` / `By Week` the summary is produced without
error for any non-empty subset (even one spanning several period
keys), its total counts every event's `capped_duration_min` regardless
of period, and the growth text depends on the tail of the subset only
through that total — the period key driving the baseline comes solely
from the first row (`iloc[0]`). -/
theorem c10_period_key_from_first_event (r : Row) (rest rest' full : List Row)
    (lbl lbl' : String) (hsum : sumCapped rest = sumCapped rest') :
    ((get_summary_for_period (r :: rest) lbl full "By Month").1.isSome = true) ∧
    ((get_summary_for_period (r :: rest) lbl full "By Month").1.map
        Summary.total_minutes = some (sumCapped (r :: rest))) ∧
    ((get_summary_for_period (r :: rest) lbl full "By Month").1.bind
        Summary.growth_text =
      (get_summary_for_period (r :: rest') lbl' full "By Month").1.bind
        Summary.growth_text) ∧
    ((get_summary_for_period (r :: rest) lbl full "By Week").1.isSome = true) ∧
    ((get_summary_for_period (r :: rest) lbl full "By Week").1.map
        Summary.total_minutes = some (sumCapped (r :: rest))) ∧
    ((get_summary_for_period (r :: rest) lbl full "By Week").1.bind
        Summary.growth_text =
      (get_summary_for_period (r :: rest') lbl' full "By Week").1.bind
        Summary.growth_text) := by
  have hs : sumCapped (r :: rest) = sumCapped (r :: rest') := by
    simp [sumCapped] at hsum ⊢
    rw [hsum]
  refine ⟨by simp [get_summary_for_period], by simp [get_summary_for_period], ?_,
    by simp [get_summary_for_period], by simp [get_summary_for_period], ?_⟩
  · simp only [get_summary_for_period, Option.some_bind]
    simp [growthTextOf]
    rw [hs]
  · simp only [get_summary_for_period, Option.some_bind]
    simp [growthTextOf]
    rw [hs]

/-- Concrete rows used by witnesses: same capped minutes in different
periods. -/
def wRow : Row :=
  { videoId := "w", timestamp := ⟨2024, 1, 15, 10, 0, 0⟩, duration_sec := 120,
    title := "s", artist := "c", duration_min := 2, capped_duration_min := 2,
    month := 24288, week := 2820, hour := none }

def xRow : Row :=
  { videoId := "x", timestamp := ⟨2024, 2, 1, 1, 0, 0⟩, duration_sec := 180,
    title := "t", artist := "a", duration_min := 3, capped_duration_min := 3,
    month := 24289, week := 2823, hour := none }

def yRow : Row :=
  { videoId := "y", timestamp := ⟨2030, 7, 1, 1, 0, 0⟩, duration_sec := 300,
    title := "u", artist := "b", duration_min := 5, capped_duration_min := 3,
    month := 24366, week := 3156, hour := none }

/-- C10 (witness): two subsets sharing the first row but with tails in
different months (equal capped sums) get identical growth text, even
though each subset spans several period keys. -/
theorem c10_witness :
    (sumCapped [xRow] = sumCapped [yRow]) ∧
    ((get_summary_for_period [wRow, xRow] "L" [] "By Month").1.bind
        Summary.growth_text =
      (get_summary_for_period [wRow, yRow] "M" [] "By Month").1.bind
        Summary.growth_text) := by
  have hsum : sumCapped [xRow] = sumCapped [yRow] := by
    simp [sumCapped, xRow, yRow]
  exact ⟨hsum, (c10_period_key_from_first_event wRow [xRow] [yRow] [] "L" "M" hsum).2.2.1⟩

/-! ## C2 — time-of-day buckets -/

/-- `capped_duration_min` is untouched by the `hour` column update. -/
theorem sumCapped_map_setHour (l : List Row) :
    sumCapped (l.map setHour) = sumCapped l := by
  simp only [sumCapped, List.map_map]
  rfl

/-- The four bucket sums add up to the whole list's capped minutes,
for any rows whose `hour` column is a valid hour. -/
theorem timeBuckets_sum (l : List Row)
    (h : ∀ x ∈ l, ∃ hh, x.hour = some hh ∧ hh < 24) :
    ((timeBucketsOf l).map Prod.snd).sum = sumCapped l := by
  induction l with
  | nil => simp [timeBucketsOf, bucketNames, sumCapped]
  | cons x t ih =>
    obtain ⟨hh, hx, hlt⟩ := h x (List.mem_cons_self x t)
    have ih' := ih (fun y hy => h y (List.mem_cons_of_mem x hy))
    have hrb : rowBucket x = bucketLabel hh := by
      rw [rowBucket, hx, Option.some_bind]
    simp only [timeBucketsOf, bucketNames, List.map_cons, List.map_nil,
      List.sum_cons, List.sum_nil, List.filter_cons, sumCapped] at ih' ⊢
    rcases Nat.lt_or_ge hh 6 with h6 | h6
    · have hb : bucketLabel hh = some nightName := by
        rw [bucketLabel, if_pos (by omega)]
      rw [hrb, hb]
      simp only [nightName, morningName, afternoonName, eveningName] at ih' ⊢
      simp only [Option.some.injEq, reduceIte, String.reduceEq, decide_eq_true_eq,
        List.map_cons, List.sum_cons]
      linarith [ih']
    · rcases Nat.lt_or_ge hh 12 with h12 | h12
      · have hb : bucketLabel hh = some morningName := by
          rw [bucketLabel, if_neg (by omega), if_pos (by omega)]
        rw [hrb, hb]
        simp only [nightName, morningName, afternoonName, eveningName] at ih' ⊢
        simp only [Option.some.injEq, reduceIte, String.reduceEq, decide_eq_true_eq,
          List.map_cons, List.sum_cons]
        linarith [ih']
      · rcases Nat.lt_or_ge hh 18 with h18 | h18
        · have hb : bucketLabel hh = some afternoonName := by
            rw [bucketLabel, if_neg (by omega), if_neg (by omega), if_pos (by omega)]
          rw [hrb, hb]
          simp only [nightName, morningName, afternoonName, eveningName] at ih' ⊢
          simp only [Option.some.injEq, reduceIte, String.reduceEq, decide_eq_true_eq,
            List.map_cons, List.sum_cons]
          linarith [ih']
        · have hb : bucketLabel hh = some eveningName := by
            rw [bucketLabel, if_neg (by omega), if_neg (by omega),
              if_neg (by omega), if_pos (by omega)]
          rw [hrb, hb]
          simp only [nightName, morningName, afternoonName, eveningName] at ih' ⊢
          simp only [Option.some.injEq, reduceIte, String.reduceEq, decide_eq_true_eq,
            List.map_cons, List.sum_cons]
          linarith [ih']

/-- C2: for every non-empty subset the summary's time buckets are
exactly the four fixed labels (all present even when empty, in
category order), the buckets partition the hours 0–23 disjointly and
exhaustively (Night = [0,6), Morning = [6,12), Afternoon = [12,18),
Evening = [18,24)), and the four bucket sums of `capped_duration_min`
add up to the subset's total minutes. -/
theorem c2_time_buckets (r : Row) (rest full : List Row) (lbl g : String)
    (h24 : ∀ x ∈ r :: rest, x.timestamp.hour < 24) :
    ∀ s, (get_summary_for_period (r :: rest) lbl full g).1 = some s →
      s.time_buckets.map Prod.fst = bucketNames ∧
      s.time_buckets.length = 4 ∧
      (s.time_buckets.map Prod.snd).sum = s.total_minutes ∧
      (∀ hh : Nat,
        (bucketLabel hh = some nightName ↔ hh < 6) ∧
        (bucketLabel hh = some morningName ↔ 6 ≤ hh ∧ hh < 12) ∧
        (bucketLabel hh = some afternoonName ↔ 12 ≤ hh ∧ hh < 18) ∧
        (bucketLabel hh = some eveningName ↔ 18 ≤ hh ∧ hh < 24)) := by
  intro s hs
  refine ⟨?_, ?_, ?_, ?_⟩
  · have hcomp : (get_summary_for_period (r :: rest) lbl full g).1.map
        (fun s => s.time_buckets.map Prod.fst) = some bucketNames := by
      simp [get_summary_for_period, timeBucketsOf, bucketNames]
    rw [hs, Option.map_some'] at hcomp
    exact Option.some.inj hcomp
  · have hcomp : (get_summary_for_period (r :: rest) lbl full g).1.map
        (fun s => s.time_buckets.length) = some 4 := by
      simp [get_summary_for_period, timeBucketsOf, bucketNames]
    rw [hs, Option.map_some'] at hcomp
    exact Option.some.inj hcomp
  · have hb : ∀ x ∈ (r :: rest).map setHour, ∃ hh, x.hour = some hh ∧ hh < 24 := by
      intro x hxm
      rw [List.mem_map] at hxm
      obtain ⟨y, hy, rfl⟩ := hxm
      exact ⟨y.timestamp.hour, rfl, h24 y hy⟩
    have hA : (get_summary_for_period (r :: rest) lbl full g).1.map
        (fun s => (s.time_buckets.map Prod.snd).sum) = some (sumCapped (r :: rest)) := by
      simp only [get_summary_for_period, Option.map_some']
      rw [timeBuckets_sum _ hb, sumCapped_map_setHour]
    have hB : (get_summary_for_period (r :: rest) lbl full g).1.map
        (fun s => s.total_minutes) = some (sumCapped (r :: rest)) := by
      simp [get_summary_for_period]
    rw [hs, Option.map_some'] at hA hB
    rw [Option.some.inj hA, Option.some.inj hB]
  · intro hh
    refine ⟨?_, ?_, ?_, ?_⟩ <;>
      · rw [bucketLabel]
        split_ifs <;>
          simp [nightName, morningName, afternoonName, eveningName] <;> omega

/-- C2 (witness): the bucket facts at a concrete subset. -/
theorem c2_witness :
    (∀ x ∈ [wRow], x.timestamp.hour < 24) ∧
    ((get_summary_for_period [wRow] "L" [wRow] "Overall").1.map
      (fun s => s.time_buckets.map Prod.fst)) = some bucketNames := by
  refine ⟨by decide, ?_⟩
  cases hs : (get_summary_for_period [wRow] "L" [wRow] "Overall").1 with
  | none => exact absurd hs (by simp [get_summary_for_period])
  | some s =>
    simp only [Option.map_some']
    exact congrArg some
      ((c2_time_buckets wRow [] [wRow] "L" "Overall" (by decide) s hs).1)

/-! ## C7 — the aggregator and its input dataframe -/

@[simp] theorem setHour_videoId (r : Row) : (setHour r).videoId = r.videoId := rfl
@[simp] theorem setHour_timestamp (r : Row) : (setHour r).timestamp = r.timestamp := rfl
@[simp] theorem setHour_duration_sec (r : Row) :
    (setHour r).duration_sec = r.duration_sec := rfl
@[simp] theorem setHour_title (r : Row) : (setHour r).title = r.title := rfl
@[simp] theorem setHour_artist (r : Row) : (setHour r).artist = r.artist := rfl
@[simp] theorem setHour_duration_min (r : Row) :
    (setHour r).duration_min = r.duration_min := rfl
@[simp] theorem setHour_capped (r : Row) :
    (setHour r).capped_duration_min = r.capped_duration_min := rfl
@[simp] theorem setHour_month (r : Row) : (setHour r).month = r.month := rfl
@[simp] theorem setHour_week (r : Row) : (setHour r).week = r.week := rfl
@[simp] theorem setHour_hour (r : Row) :
    (setHour r).hour = some r.timestamp.hour := rfl

/-- Every column of a row except the added `hour` one. -/
def rowExceptHour (r : Row) :
    String × Timestamp × ℚ × String × String × ℚ × ℚ × Int × Int :=
  (r.videoId, r.timestamp, r.duration_sec, r.title, r.artist,
    r.duration_min, r.capped_duration_min, r.month, r.week)

theorem map_setHour_proj {β : Type} (f : Row → β) (hf : ∀ r, f (setHour r) = f r)
    (l : List Row) : (l.map setHour).map f = l.map f := by
  rw [List.map_map]
  exact List.map_congr_left (fun a _ => hf a)

theorem map_setHour_setHour (l : List Row) :
    (l.map setHour).map setHour = l.map setHour := by
  rw [List.map_map]
  exact List.map_congr_left (fun a _ => rfl)

theorem filter_map_setHour (p : Row → Bool) (hp : ∀ r, p (setHour r) = p r)
    (l : List Row) : (l.map setHour).filter p = (l.filter p).map setHour := by
  rw [List.filter_map]
  congr 1
  exact List.filter_congr (fun a _ => hp a)

theorem growthTextOf_map_setHour (l full : List Row) (g : String) :
    growthTextOf (l.map setHour) full g = growthTextOf l full g := by
  cases l with
  | nil => rfl
  | cons r rest =>
    show growthTextOf (setHour r :: rest.map setHour) full g =
      growthTextOf (r :: rest) full g
    simp only [growthTextOf, List.headD_cons, setHour_month, setHour_week]
    have hsc : sumCapped (setHour r :: rest.map setHour) = sumCapped (r :: rest) := by
      rw [show setHour r :: rest.map setHour = (r :: rest).map setHour from rfl,
        sumCapped_map_setHour]
    rw [hsc]

theorem songAggOf_map_setHour (l : List Row) :
    songAggOf (l.map setHour) = songAggOf l := by
  unfold songAggOf groupBySorted
  dsimp only
  rw [map_setHour_proj (fun r => r.title) (fun r => rfl) l]
  congr 1
  rw [List.map_map, List.map_map]
  apply List.map_congr_left
  intro k _
  dsimp only [Function.comp]
  rw [filter_map_setHour (fun row => decide (row.title = k)) (fun r => rfl) l,
    sumCapped_map_setHour, List.length_map]

theorem artistAggOf_map_setHour (l : List Row) :
    artistAggOf (l.map setHour) = artistAggOf l := by
  unfold artistAggOf groupBySorted
  dsimp only
  rw [map_setHour_proj (fun r => r.artist) (fun r => rfl) l]
  congr 1
  rw [List.map_map, List.map_map]
  apply List.map_congr_left
  intro k _
  dsimp only [Function.comp]
  rw [filter_map_setHour (fun row => decide (row.artist = k)) (fun r => rfl) l,
    sumCapped_map_setHour]

theorem byDayOf_map_setHour (l : List Row) :
    byDayOf (l.map setHour) = byDayOf l := by
  unfold byDayOf groupBySorted
  dsimp only
  rw [map_setHour_proj (fun r => dateOf r.timestamp) (fun r => rfl) l]
  rw [List.map_map, List.map_map]
  apply List.map_congr_left
  intro k _
  dsimp only [Function.comp]
  rw [filter_map_setHour (fun row => decide (dateOf row.timestamp = k)) (fun r => rfl) l,
    sumCapped_map_setHour]

/-- C7 (counterexample): the claim says neither input dataframe is
mutated, but `summarize` adds the `hour` column to its subset in
place: the subset's post-call state differs from its pre-call state. -/
theorem c7_mutation_counterexample :
    (get_summary_for_period [wRow] "x" [wRow] "Overall").2 ≠ [wRow] := by
  decide

/-- C7 (amended): `get_summary_for_period` mutates its subset
dataframe only by (re)setting the derived `hour` column to the hour of
each row's timestamp; every pre-existing column of every input row is
unchanged, and the function is insensitive to the `hour` column of its
input — so repeated queries over the same enriched set observe
identical data and return identical summaries. -/
theorem c7_hour_column_only (df full : List Row) (lbl g : String) :
    ((get_summary_for_period df lbl full g).2 = df.map setHour) ∧
    ((get_summary_for_period df lbl full g).2.map rowExceptHour =
      df.map rowExceptHour) ∧
    (get_summary_for_period (df.map setHour) lbl full g =
      get_summary_for_period df lbl full g) := by
  refine ⟨?_, ?_, ?_⟩
  · cases df <;> rfl
  · cases df with
    | nil => rfl
    | cons r rest =>
      show ((r :: rest).map setHour).map rowExceptHour = _
      exact map_setHour_proj rowExceptHour (fun r => rfl) (r :: rest)
  · cases df with
    | nil => rfl
    | cons r rest =>
      show get_summary_for_period (setHour r :: rest.map setHour) lbl full g =
        get_summary_for_period (r :: rest) lbl full g
      simp only [get_summary_for_period]
      rw [show setHour r :: rest.map setHour = (r :: rest).map setHour from rfl,
        songAggOf_map_setHour, artistAggOf_map_setHour, byDayOf_map_setHour,
        sumCapped_map_setHour, growthTextOf_map_setHour, map_setHour_setHour]

/-! ## Dict and item-processing lemmas (C5, C9) -/

theorem dictInsert_idem (m : Dict) (k : String) (v : Meta) :
    dictInsert (dictInsert m k v) k v = dictInsert m k v := by
  by_cases h : m.any (fun p => p.1 = k) = true
  · have hin : dictInsert m k v = m.map (fun p => if p.1 = k then (k, v) else p) := by
      rw [dictInsert, if_pos h]
    have h2 : (m.map (fun p => if p.1 = k then (k, v) else p)).any
        (fun p => p.1 = k) = true := by
      rw [List.any_eq_true] at h ⊢
      obtain ⟨p, hp, hpk⟩ := h
      refine ⟨if p.1 = k then (k, v) else p, List.mem_map_of_mem _ hp, ?_⟩
      rw [if_pos (of_decide_eq_true hpk)]
      simp
    rw [hin, dictInsert, if_pos h2, List.map_map]
    apply List.map_congr_left
    intro a _
    by_cases hak : a.1 = k
    · simp [Function.comp, hak]
    · simp [Function.comp, hak]
  · have hin : dictInsert m k v = m ++ [(k, v)] := by
      rw [dictInsert, if_neg h]
    have h2 : ((m ++ [(k, v)]).any (fun p => p.1 = k)) = true := by
      rw [List.any_eq_true]
      exact ⟨(k, v), by simp, by simp⟩
    rw [hin, dictInsert, if_pos h2, List.map_append]
    have hm : m.map (fun p => if p.1 = k then (k, v) else p) = m := by
      have := List.map_congr_left (l := m)
        (f := fun p => if p.1 = k then (k, v) else p) (g := id) ?_
      · rw [this, List.map_id]
      · intro a ha
        have hak : ¬ a.1 = k := by
          intro hak
          exact h (List.any_eq_true.mpr ⟨a, ha, by simp [hak]⟩)
        simp [hak]
    rw [hm]
    simp

theorem dictLookup_dictInsert (m : Dict) (k : String) (v : Meta) :
    dictLookup (dictInsert m k v) k = some v := by
  induction m with
  | nil => simp [dictInsert, dictLookup, List.find?]
  | cons p t ih =>
    by_cases hpk : p.1 = k
    · have hany : ((p :: t).any (fun q => q.1 = k)) = true := by
        rw [List.any_eq_true]
        exact ⟨p, by simp, by simp [hpk]⟩
      rw [dictInsert, if_pos hany]
      simp only [List.map_cons, if_pos hpk]
      simp [dictLookup, List.find?]
    · rw [dictInsert]
      by_cases hat : t.any (fun q => q.1 = k) = true
      · have hany : ((p :: t).any (fun q => q.1 = k)) = true := by
          simp [List.any_cons, hat]
        rw [if_pos hany]
        simp only [List.map_cons, if_neg hpk]
        rw [dictLookup, List.find?]
        rw [show (decide (p.1 = k)) = false from decide_eq_false hpk]
        have := ih
        rw [dictInsert, if_pos hat] at this
        exact this
      · have hany : ((p :: t).any (fun q => q.1 = k)) = false := by
          simp only [List.any_cons, Bool.or_eq_false_iff]
          cases hbool : t.any (fun q => q.1 = k) with
          | false => exact ⟨decide_eq_false hpk, rfl⟩
          | true => exact absurd hbool hat
        rw [if_neg (by simp [hany]), List.cons_append]
        rw [dictLookup, List.find?]
        rw [show (decide (p.1 = k)) = false from decide_eq_false hpk]
        have := ih
        rw [dictInsert, if_neg (by simp [hat])] at this
        exact this

theorem processItem_idem (m : Dict) (it : RawItem) :
    processItem (processItem m it) it = processItem m it := by
  obtain ⟨i, d, t, c, cat⟩ := it
  cases i with
  | none => rfl
  | some v =>
    cases d with
    | none => rfl
    | some ds =>
      cases t with
      | none => rfl
      | some ti =>
        cases c with
        | none => rfl
        | some ch =>
          simp only [processItem]
          cases hp : parse_duration ds with
          | none => rfl
          | some secs => exact dictInsert_idem m v ⟨some secs, ti, ch⟩

/-! ## Batch-loop lemmas (C5, C8) -/

def numBatches (n : Nat) : Nat := (n + 49) / 50

/-- The `(processed_count, bar_progress)` pair the loop reports after
the batch ending at index `p`. -/
def payload (total p : Nat) : Nat × Int :=
  (min p total,
   Rat.floor (10 + (if total > 0 then ((min p total : Nat) : ℚ) / (total : ℚ) else 0) * 80))

theorem chunksGo_congr :
    ∀ (f1 : Nat) (l : List String) (f2 : Nat), l.length ≤ f1 → l.length ≤ f2 →
      chunksGo f1 l = chunksGo f2 l := by
  intro f1
  induction f1 with
  | zero =>
    intro l f2 h1 _
    have : l = [] := List.length_eq_zero.mp (Nat.le_zero.mp h1)
    subst this
    cases f2 <;> rfl
  | succ f ih =>
    intro l f2 h1 h2
    cases l with
    | nil => cases f2 <;> rfl
    | cons x xs =>
      cases f2 with
      | zero => simp at h2
      | succ f2' =>
        simp only [chunksGo]
        congr 1
        apply ih
        · simp only [List.length_drop, List.length_cons]
          simp at h1
          omega
        · simp only [List.length_drop, List.length_cons]
          simp at h2
          omega

theorem fetchGo_metadata_chunks (client : Client) (total : Nat) :
    ∀ (fuel : Nat) (l : List String), l.length ≤ fuel → ∀ (i : Nat) (m : Dict),
      (fetchGo client total fuel l i m).metadata =
        (chunks50 l).foldl (fun acc c =>
          match client c with
          | .error _ => acc
          | .ok items => items.foldl processItem acc) m := by
  intro fuel
  induction fuel with
  | zero =>
    intro l h i m
    have : l = [] := List.length_eq_zero.mp (Nat.le_zero.mp h)
    subst this
    rfl
  | succ f ih =>
    intro l h i m
    cases l with
    | nil => rfl
    | cons x xs =>
      have hdrop : ((x :: xs).drop 50).length ≤ f := by
        simp only [List.length_drop, List.length_cons]
        simp at h
        omega
      have hchunks : chunks50 (x :: xs) =
          (x :: xs).take 50 :: chunks50 ((x :: xs).drop 50) := by
        rw [chunks50, chunks50]
        show chunksGo (xs.length + 1) (x :: xs) = _
        rw [chunksGo]
        congr 1
        exact chunksGo_congr xs.length ((x :: xs).drop 50) ((x :: xs).drop 50).length
          (by simp only [List.length_drop, List.length_cons]; omega) (le_refl _)
      cases hc : client ((x :: xs).take 50) with
      | error e =>
        rw [show (fetchGo client total (f + 1) (x :: xs) i m) =
            (match client ((x :: xs).take 50) with
             | .error _ =>
               let out := fetchGo client total f ((x :: xs).drop 50) (i + 50) m
               ⟨out.metadata, out.reports, (x :: xs).take 50 :: out.requests⟩
             | .ok items =>
               let m2 := items.foldl processItem m
               let processed := min (i + 50) total
               let pct : ℚ := if total > 0 then (processed : ℚ) / (total : ℚ) else 0
               let bar : Int := Rat.floor (10 + pct * 80)
               let out := fetchGo client total f ((x :: xs).drop 50) (i + 50) m2
               ⟨out.metadata, (processed, bar) :: out.reports,
                 (x :: xs).take 50 :: out.requests⟩) from rfl]
        rw [hchunks, List.foldl_cons]
        simp only [hc]
        exact ih _ hdrop (i + 50) m
      | ok items =>
        rw [show (fetchGo client total (f + 1) (x :: xs) i m) =
            (match client ((x :: xs).take 50) with
             | .error _ =>
               let out := fetchGo client total f ((x :: xs).drop 50) (i + 50) m
               ⟨out.metadata, out.reports, (x :: xs).take 50 :: out.requests⟩
             | .ok items =>
               let m2 := items.foldl processItem m
               let processed := min (i + 50) total
               let pct : ℚ := if total > 0 then (processed : ℚ) / (total : ℚ) else 0
               let bar : Int := Rat.floor (10 + pct * 80)
               let out := fetchGo client total f ((x :: xs).drop 50) (i + 50) m2
               ⟨out.metadata, (processed, bar) :: out.reports,
                 (x :: xs).take 50 :: out.requests⟩) from rfl]
        rw [hchunks, List.foldl_cons]
        simp only [hc]
        exact ih _ hdrop (i + 50) (items.foldl processItem m)

/-! ## C5 — batch-level and item-level failure handling -/

/-- C5 (counterexample): the claim says each item in a successful
batch yields a metadata entry carrying the item's category id.  Two
clients whose responses differ *only* in `categoryId` produce
identical fetch results — the code stores only `duration_sec`, `title`
and `artist`, so no category id is captured. -/
theorem c5_category_id_counterexample :
    fetch_video_metadata
        (fun _ => .ok [⟨some "a", some "PT3M32S", some "T", some "A", some "10"⟩])
        ["a"] =
      fetch_video_metadata
        (fun _ => .ok [⟨some "a", some "PT3M32S", some "T", some "A", some "22"⟩])
        ["a"] ∧
    (some "10" : Option String) ≠ some "22" := by
  exact ⟨rfl, by decide⟩

/-- C5 (amended): a batch-level lookup failure skips the whole batch
of up to 50 ids (no partial retry, no per-item fallback) and
processing continues with the next batch — the resulting mapping is a
fold over the batches in which a failed batch contributes nothing.
Within a successful batch, an item with all expected fields and a
well-formed ISO-8601 duration string yields an entry with the parsed
duration in seconds, the title and the creator display name (but no
category id); an item with a missing field or malformed duration is
skipped individually, leaving the dict unchanged.  Neither failure is
escalated: `fetch_video_metadata` is a total function. -/
theorem c5_batch_and_item_handling :
    (∀ (client : Client) (ids : List String),
      (fetch_video_metadata client ids).metadata =
        (chunks50 ids).foldl (fun acc c =>
          match client c with
          | .error _ => acc
          | .ok items => items.foldl processItem acc) []) ∧
    (∀ (m : Dict) (it : RawItem) (v ds t c : String) (secs : ℚ),
      it.id = some v → it.duration = some ds → it.title = some t →
      it.channelTitle = some c → parse_duration ds = some secs →
      processItem m it = dictInsert m v ⟨some secs, t, c⟩ ∧
      dictLookup (processItem m it) v = some ⟨some secs, t, c⟩) ∧
    (∀ (m : Dict) (it : RawItem),
      (it.id = none ∨ it.duration = none ∨ it.title = none ∨
        it.channelTitle = none ∨
        (∃ ds, it.duration = some ds ∧ parse_duration ds = none)) →
      processItem m it = m) := by
  refine ⟨?_, ?_, ?_⟩
  · intro client ids
    exact fetchGo_metadata_chunks client ids.length ids.length ids (le_refl _) 0 []
  · rintro m ⟨i, d, t0, c0, cat⟩ v ds t c secs hi hd ht hc hp
    simp only at hi hd ht hc
    subst hi; subst hd; subst ht; subst hc
    have hstep : processItem m ⟨some v, some ds, some t, some c, cat⟩ =
        dictInsert m v ⟨some secs, t, c⟩ := by
      simp only [processItem, hp]
    exact ⟨hstep, by rw [hstep]; exact dictLookup_dictInsert m v _⟩
  · rintro m ⟨i, d, t0, c0, cat⟩ hbad
    rcases hbad with hb | hb | hb | hb | ⟨ds, hds, hpn⟩ <;> simp only at *
    · subst hb; rfl
    · subst hb
      cases i <;> rfl
    · subst hb
      cases i <;> cases d <;> rfl
    · subst hb
      cases i <;> cases d <;> cases t0 <;> rfl
    · subst hds
      cases i with
      | none => rfl
      | some v =>
        cases t0 with
        | none => rfl
        | some t1 =>
          cases c0 with
          | none => rfl
          | some c1 => simp only [processItem, hpn]

/-- C5 (witness): the amended theorem exercised on concrete data — a
failing single-batch run yields an empty mapping, a well-formed item
is stored with its parsed duration, a malformed item is skipped. -/
theorem c5_witness :
    parse_duration "PT3M32S" = some 212 ∧
    processItem [] ⟨some "a", some "PT3M32S", some "T", some "A", some "10"⟩ =
      [("a", ⟨some 212, "T", "A"⟩)] ∧
    processItem [("a", ⟨some 212, "T", "A"⟩)]
        ⟨some "b", some "oops", some "T2", some "A2", none⟩ =
      [("a", ⟨some 212, "T", "A"⟩)] ∧
    (fetch_video_metadata (fun _ => .error ()) ["a"]).metadata = [] := by
  have hdur : parse_duration "PT3M32S" = some 212 := by
    have h : parseDurParts "PT3M32S" =
        some (false, ⟨0, 0, 0⟩, ⟨0, 0, 0⟩, ⟨0, 0, 0⟩, ⟨3, 0, 0⟩, ⟨32, 0, 0⟩) := by
      decide
    rw [parse_duration, h, Option.map_some']
    norm_num [durSeconds, numVal]
  refine ⟨hdur, ?_, ?_, ?_⟩
  · rw [(c5_batch_and_item_handling.2.1 []
      ⟨some "a", some "PT3M32S", some "T", some "A", some "10"⟩
      "a" "PT3M32S" "T" "A" 212 rfl rfl rfl rfl hdur).1]
    rfl
  · exact c5_batch_and_item_handling.2.2 _
      ⟨some "b", some "oops", some "T2", some "A2", none⟩
      (Or.inr (Or.inr (Or.inr (Or.inr ⟨"oops", rfl, by decide⟩))))
  · rw [c5_batch_and_item_handling.1 (fun _ => .error ()) ["a"]]
    rfl

/-! ## C8 — progress reporting -/

/-- One unfolding step of the batch loop. -/
theorem fetchGo_succ_cons (client : Client) (total fuel i : Nat) (x : String)
    (xs : List String) (m : Dict) :
    fetchGo client total (fuel + 1) (x :: xs) i m =
      match client ((x :: xs).take 50) with
      | .error _ =>
        let out := fetchGo client total fuel ((x :: xs).drop 50) (i + 50) m
        ⟨out.metadata, out.reports, (x :: xs).take 50 :: out.requests⟩
      | .ok items =>
        let m2 := items.foldl processItem m
        let processed := min (i + 50) total
        let pct : ℚ := if total > 0 then (processed : ℚ) / (total : ℚ) else 0
        let bar : Int := Rat.floor (10 + pct * 80)
        let out := fetchGo client total fuel ((x :: xs).drop 50) (i + 50) m2
        ⟨out.metadata, (processed, bar) :: out.reports,
          (x :: xs).take 50 :: out.requests⟩ := rfl

theorem chunks50_cons (x : String) (xs : List String) :
    chunks50 (x :: xs) = (x :: xs).take 50 :: chunks50 ((x :: xs).drop 50) := by
  rw [chunks50, chunks50]
  show chunksGo (xs.length + 1) (x :: xs) = _
  rw [chunksGo]
  congr 1
  exact chunksGo_congr xs.length ((x :: xs).drop 50) ((x :: xs).drop 50).length
    (by simp only [List.length_drop, List.length_cons]; omega) (le_refl _)

/-- Reports of a run whose batches all succeed: one per batch, in
order, with `processed = min(k*50, total)` for the `k`-th batch
(1-indexed) and the bar value of `payload`. -/
theorem fetchGo_reports_ok (client : Client) (total : Nat) :
    ∀ (fuel : Nat) (l : List String), l.length ≤ fuel → ∀ (i : Nat) (m : Dict),
      (∀ c ∈ chunks50 l, (client c).isOk = true) →
      (fetchGo client total fuel l i m).reports =
        (List.range (numBatches l.length)).map
          (fun k => payload total (i + (k + 1) * 50)) := by
  intro fuel
  induction fuel with
  | zero =>
    intro l h i m _
    have : l = [] := List.length_eq_zero.mp (Nat.le_zero.mp h)
    subst this
    simp [numBatches, fetchGo]
  | succ f ih =>
    intro l h i m hok
    cases l with
    | nil => simp [numBatches, fetchGo]
    | cons x xs =>
      have hdrop : ((x :: xs).drop 50).length ≤ f := by
        simp only [List.length_drop, List.length_cons]
        simp at h
        omega
      have hhead : (client ((x :: xs).take 50)).isOk = true := by
        apply hok
        rw [chunks50_cons]
        exact List.mem_cons_self _ _
      have hokrest : ∀ c ∈ chunks50 ((x :: xs).drop 50), (client c).isOk = true := by
        intro c hcm
        apply hok
        rw [chunks50_cons]
        exact List.mem_cons_of_mem _ hcm
      cases hc : client ((x :: xs).take 50) with
      | error e =>
        rw [hc] at hhead
        cases e
        exact absurd hhead (by decide)
      | ok items =>
        rw [fetchGo_succ_cons]
        simp only [hc]
        have hnb : numBatches (x :: xs).length =
            numBatches ((x :: xs).drop 50).length + 1 := by
          simp only [numBatches, List.length_drop, List.length_cons]
          omega
        rw [hnb, List.range_succ_eq_map, List.map_cons, List.map_map]
        rw [ih _ hdrop (i + 50) (items.foldl processItem m) hokrest]
        rw [show i + 1 * 50 = i + 50 from by omega, payload]
        congr 1
        apply List.map_congr_left
        intro k _
        show payload total (i + 50 + (k + 1) * 50) = payload total (i + (k + 1 + 1) * 50)
        exact congrArg (payload total) (by omega)

/-- Reported progress is monotone (non-decreasing in `processed`) in
every run, failed batches included, and every report's `processed` is
at least `min(i+50, total)` for the loop position `i` it started at. -/
theorem fetchGo_reports_mono (client : Client) (total : Nat) :
    ∀ (fuel : Nat) (l : List String) (i : Nat) (m : Dict),
      List.Pairwise (fun a b => a.1 ≤ b.1)
        (fetchGo client total fuel l i m).reports ∧
      (∀ rep ∈ (fetchGo client total fuel l i m).reports,
        min (i + 50) total ≤ rep.1) := by
  intro fuel
  induction fuel with
  | zero => intro l i m; simp [fetchGo]
  | succ f ih =>
    intro l i m
    cases l with
    | nil => simp [fetchGo]
    | cons x xs =>
      cases hc : client ((x :: xs).take 50) with
      | error e =>
        rw [fetchGo_succ_cons]
        simp only [hc]
        obtain ⟨hpw, hbd⟩ := ih ((x :: xs).drop 50) (i + 50) m
        refine ⟨hpw, ?_⟩
        intro rep hrep
        have := hbd rep hrep
        omega
      | ok items =>
        rw [fetchGo_succ_cons]
        simp only [hc]
        obtain ⟨hpw, hbd⟩ := ih ((x :: xs).drop 50) (i + 50) (items.foldl processItem m)
        refine ⟨List.pairwise_cons.mpr ⟨?_, hpw⟩, ?_⟩
        · intro rep hrep
          have := hbd rep hrep
          simp only
          omega
        · intro rep hrep
          rcases List.mem_cons.mp hrep with hr | hr
          · subst hr; omega
          · have := hbd rep hr
            omega

theorem payload_bar_bounds (total p : Nat) (hpos : 0 < total) :
    10 ≤ (payload total p).2 ∧ (payload total p).2 ≤ 90 := by
  rw [payload]
  simp only [if_pos hpos]
  have hq0 : (0 : ℚ) ≤ ((min p total : Nat) : ℚ) / (total : ℚ) :=
    div_nonneg (by positivity) (by positivity)
  have hq1 : ((min p total : Nat) : ℚ) / (total : ℚ) ≤ 1 := by
    rw [div_le_one (by positivity)]
    exact_mod_cast min_le_right p total
  constructor
  · exact Rat.le_floor.mpr (by nlinarith)
  · by_contra hcon
    push_neg at hcon
    have h91 : (91 : ℤ) ≤ Rat.floor
        (10 + ((min p total : Nat) : ℚ) / (total : ℚ) * 80) := by omega
    have h1 := Rat.le_floor.mp h91
    have h2 : (91 : ℚ) ≤ 10 + ((min p total : Nat) : ℚ) / (total : ℚ) * 80 := by
      exact_mod_cast h1
    nlinarith

/-- C8 (counterexample): the claim says that after the `k`-th batch a
report with `processed = min(k*50, total)` is emitted, for every run;
but a batch whose lookup fails emits no report at all (`continue`
skips the progress update). -/
theorem c8_skipped_report_counterexample :
    (fetch_video_metadata (fun _ => .error ()) ["a"]).reports = [] ∧
    ¬ (∃ rep ∈ (fetch_video_metadata (fun _ => .error ()) ["a"]).reports,
        rep.1 = min (1 * 50) 1) := by
  refine ⟨rfl, ?_⟩
  rintro ⟨rep, hrep, -⟩
  rw [show (fetch_video_metadata (fun _ => .error ()) ["a"]).reports = [] from rfl]
    at hrep
  exact absurd hrep (List.not_mem_nil rep)

/-- C8 (amended): after the `k`-th *successful* batch the fetcher
reports `processed = min(k*50, total)` with the fraction
`processed/total` (0 if `total` is 0) mapped into `[10, 90]` by
`int(10 + fraction*80)`; a failed batch emits no report.  Across any
run (failures included) the reported `processed` values are
monotonically non-decreasing, and when every batch succeeds the final
report saturates at `processed = total` with bar value 90. -/
theorem c8_progress_reports :
    (∀ (client : Client) (ids : List String),
      (∀ c ∈ chunks50 ids, (client c).isOk = true) →
      (fetch_video_metadata client ids).reports =
        (List.range (numBatches ids.length)).map
          (fun k => payload ids.length ((k + 1) * 50))) ∧
    (∀ total p : Nat, 0 < total →
      (payload total p).1 = min p total ∧
      10 ≤ (payload total p).2 ∧ (payload total p).2 ≤ 90) ∧
    (∀ (client : Client) (ids : List String),
      List.Pairwise (fun a b => a.1 ≤ b.1)
        (fetch_video_metadata client ids).reports) ∧
    (∀ (client : Client) (ids : List String), ids ≠ [] →
      (∀ c ∈ chunks50 ids, (client c).isOk = true) →
      (ids.length, (90 : Int)) ∈ (fetch_video_metadata client ids).reports) := by
  have hform : ∀ (client : Client) (ids : List String),
      (∀ c ∈ chunks50 ids, (client c).isOk = true) →
      (fetch_video_metadata client ids).reports =
        (List.range (numBatches ids.length)).map
          (fun k => payload ids.length ((k + 1) * 50)) := by
    intro client ids hok
    rw [fetch_video_metadata,
      fetchGo_reports_ok client ids.length ids.length ids (le_refl _) 0 [] hok]
    apply List.map_congr_left
    intro k _
    exact congrArg (payload ids.length) (by omega)
  refine ⟨hform, ?_, ?_, ?_⟩
  · intro total p hpos
    exact ⟨rfl, payload_bar_bounds total p hpos⟩
  · intro client ids
    exact (fetchGo_reports_mono client ids.length ids.length ids 0 []).1
  · intro client ids hne hok
    rw [hform client ids hok]
    have hlen : 0 < ids.length := List.length_pos.mpr hne
    have hnb : 0 < numBatches ids.length := by
      rw [numBatches]; omega
    refine List.mem_map.mpr ⟨numBatches ids.length - 1, List.mem_range.mpr (by omega), ?_⟩
    have hge : ids.length ≤ (numBatches ids.length - 1 + 1) * 50 := by
      rw [numBatches]
      omega
    rw [payload]
    have hmin : min ((numBatches ids.length - 1 + 1) * 50) ids.length = ids.length :=
      min_eq_right hge
    rw [hmin, if_pos hlen]
    have hdiv : ((ids.length : Nat) : ℚ) / ((ids.length : Nat) : ℚ) = 1 :=
      div_self (by positivity)
    rw [hdiv]
    norm_num [Rat.floor]

/-- C8 (witness): a 60-id all-success run reports exactly
`[(50, 76), (60, 90)]`. -/
theorem c8_witness :
    (∀ c ∈ chunks50 (List.replicate 60 "x"),
      (((fun _ => Except.ok []) : Client) c).isOk = true) ∧
    (fetch_video_metadata ((fun _ => Except.ok []) : Client)
        (List.replicate 60 "x")).reports = [(50, 76), (60, 90)] := by
  refine ⟨by decide, ?_⟩
  rw [c8_progress_reports.1 ((fun _ => Except.ok []) : Client)
    (List.replicate 60 "x") (by decide)]
  have h60 : (List.replicate 60 "x").length = 60 := by decide
  rw [h60]
  have hnb : numBatches 60 = 2 := by decide
  rw [hnb]
  have hr : List.range 2 = [0, 1] := by decide
  rw [hr, List.map_cons, List.map_cons, List.map_nil]
  have h1 : payload 60 ((0 + 1) * 50) = (50, 76) := by
    rw [payload]
    norm_num [Rat.floor]
  have h2 : payload 60 ((1 + 1) * 50) = (60, 90) := by
    rw [payload]
    norm_num [Rat.floor]
  rw [h1, h2]

/-! ## C9 — deduplication and idempotence -/

theorem fetchGo_nil (client : Client) (total : Nat) (f i : Nat) (m : Dict) :
    fetchGo client total f [] i m = ⟨m, [], []⟩ := by
  cases f <;> rfl

/-- A run whose ids fit in a single batch issues one request with the
ids exactly as given and folds that batch's items. -/
theorem fetch_metadata_single (client : Client) (x : String) (xs : List String)
    (h : xs.length < 50) :
    (fetch_video_metadata client (x :: xs)).metadata =
      match client (x :: xs) with
      | .error _ => []
      | .ok items => items.foldl processItem [] := by
  rw [fetch_video_metadata]
  show (fetchGo client (x :: xs).length (xs.length + 1) (x :: xs) 0 []).metadata = _
  rw [fetchGo_succ_cons,
    List.take_of_length_le (by simp only [List.length_cons]; omega),
    List.drop_eq_nil_of_le (by simp only [List.length_cons]; omega)]
  cases hc : client (x :: xs) with
  | error e =>
    simp only [hc]
    rw [fetchGo_nil]
  | ok items =>
    simp only [hc]
    rw [fetchGo_nil]

/-- C9 (counterexample): the claim says the fetcher deduplicates input
ids before fetching, but the batch request for `["a", "a", "b"]`
carries the duplicate: the id list sent on the wire is not the
deduplication. -/
theorem c9_no_dedup_counterexample :
    (fetch_video_metadata ((fun _ => Except.ok []) : Client)
        ["a", "a", "b"]).requests = [["a", "a", "b"]] ∧
    ["a", "a", "b"] ≠ ["a", "a", "b"].dedup ∧
    (["a", "a", "b"] : List String).dedup = ["a", "b"] := by
  exact ⟨rfl, by decide, by decide⟩

/-- C9 (amended): the fetcher itself performs no deduplication — it
sends the ids exactly as given (its caller passes unique ids).
Nevertheless, for a lookup that answers each id pointwise and
deterministically, the resulting mapping is invariant under
duplication: fetching `["a","a","b"]` yields the same mapping as
`["a","b"]`, and fetching the same id twice yields the same metadata
as fetching it once. -/
theorem c9_duplicate_invariance :
    (∀ itemOf : String → Option RawItem,
      (fetch_video_metadata (fun b => Except.ok (b.filterMap itemOf))
          ["a", "a", "b"]).metadata =
        (fetch_video_metadata (fun b => Except.ok (b.filterMap itemOf))
          ["a", "b"]).metadata) ∧
    (∀ itemOf : String → Option RawItem,
      (fetch_video_metadata (fun b => Except.ok (b.filterMap itemOf))
          ["a", "a"]).metadata =
        (fetch_video_metadata (fun b => Except.ok (b.filterMap itemOf))
          ["a"]).metadata) := by
  constructor
  · intro itemOf
    rw [fetch_metadata_single _ _ _ (by decide),
      fetch_metadata_single _ _ _ (by decide)]
    simp only []
    rcases hA : itemOf "a" with _ | ia <;> rcases hB : itemOf "b" with _ | ib
    · simp only [List.filterMap_cons, hA, hB, List.filterMap_nil]
    · simp only [List.filterMap_cons, hA, hB, List.filterMap_nil]
    · simp only [List.filterMap_cons, hA, hB, List.filterMap_nil, List.foldl_cons,
        List.foldl_nil]
      exact processItem_idem [] ia
    · simp only [List.filterMap_cons, hA, hB, List.filterMap_nil, List.foldl_cons,
        List.foldl_nil]
      exact congrArg (fun d => processItem d ib) (processItem_idem [] ia)
  · intro itemOf
    rw [fetch_metadata_single _ _ _ (by decide),
      fetch_metadata_single _ _ _ (by decide)]
    simp only []
    rcases hA : itemOf "a" with _ | ia <;>
      simp only [List.filterMap_cons, hA, List.filterMap_nil, List.foldl_cons,
        List.foldl_nil]
    exact processItem_idem [] ia

end YTMW
